import Mathlib

/-!
Verification of the SourceFlow relationship builder and node-selection logic.

This development shallowly embeds the core of `sourceflow/core/builder.py`
(the `RelationshipBuilder` class: ingestion, call graph, reverse call graph,
path tracing, summary assembly) and the node-selection logic of
`sourceflow/core/visualizer.py` (`_generate_mermaid` and
`_generate_dependency_mermaid`, connection-count ranking with an optional
node budget).

Python dictionaries are modelled as insertion-ordered association lists
(`List (String × α)`): lookup returns the value of the first matching key,
and insertion either updates the first matching key in place (keeping its
position) or appends a new binding at the end — exactly Python's `dict`
semantics.  Python sets are modelled as duplicate-free lists built with
`sinsert` (membership is all the claims ever depend on).
-/

namespace SourceFlow

/-- A stored function record: the value of `self.all_functions[func_name]`
in `RelationshipBuilder.add_file_analysis`. -/
structure FuncDetails where
  description : String
  inputs : String
  outputs : String
  calls : List String
  file_path : String
deriving DecidableEq, Repr

/-- One element of the analyzer's `functions` list.  Every field is optional:
the Python code reads each one with `dict.get` and a default. -/
structure FuncData where
  name : Option String
  description : Option String
  inputs : Option String
  outputs : Option String
  calls : Option (List String)
deriving DecidableEq, Repr

/-- A per-file analysis record as handed to `add_file_analysis`.  Every field
is optional: the Python code reads each one with `dict.get` and a default. -/
structure Analysis where
  summary : Option String
  dependencies : Option (List String)
  entry_points : Option (List String)
  functions : Option (List FuncData)
deriving DecidableEq, Repr

/-- Python `dict` insertion: update the first binding of the key in place, or
append a fresh binding at the end. -/
def dinsert {α : Type} (m : List (String × α)) (k : String) (v : α) : List (String × α) :=
  match m with
  | [] => [(k, v)]
  | (k', v') :: rest => if k' = k then (k, v) :: rest else (k', v') :: dinsert rest k v

/-- Python `set.add`: membership-based, no duplicates. -/
def sinsert (s : List String) (x : String) : List String :=
  if x ∈ s then s else s ++ [x]

/-- The mutable state of a `RelationshipBuilder` instance. -/
structure Builder where
  all_functions : List (String × FuncDetails)
  all_dependencies : List String
  all_entry_points : List String
  file_summaries : List (String × String)
  call_graph : List (String × List String)
  reverse_call_graph : List (String × List String)
deriving DecidableEq, Repr

/-- `RelationshipBuilder.__init__`. -/
def emptyBuilder : Builder :=
  { all_functions := [], all_dependencies := [], all_entry_points := [],
    file_summaries := [], call_graph := [], reverse_call_graph := [] }

/-- The per-function body of the loop in `add_file_analysis`: it touches only
`all_functions`, `call_graph` and `reverse_call_graph`, threaded here as a
triple. -/
def processFunc (file_path : String)
    (st : List (String × FuncDetails) × List (String × List String) × List (String × List String))
    (func_data : FuncData) :
    List (String × FuncDetails) × List (String × List String) × List (String × List String) :=
  let func_name := func_data.name.getD "unknown"
  let calls := func_data.calls.getD []
  let af := dinsert st.1 func_name
    { description := func_data.description.getD ""
      inputs := func_data.inputs.getD ""
      outputs := func_data.outputs.getD ""
      calls := calls
      file_path := file_path }
  let cg := dinsert st.2.1 func_name calls
  -- `if called not in reverse_call_graph: [...] = []` then `.append(func_name)`
  let rcg := calls.foldl
    (fun m called => dinsert m called (((List.lookup called m).getD []) ++ [func_name]))
    st.2.2
  (af, cg, rcg)

/-- `RelationshipBuilder.add_file_analysis`. -/
def add_file_analysis (b : Builder) (file_path : String) (analysis : Analysis) : Builder :=
  let st := (analysis.functions.getD []).foldl (processFunc file_path)
    (b.all_functions, b.call_graph, b.reverse_call_graph)
  { all_functions := st.1
    all_dependencies := (analysis.dependencies.getD []).foldl sinsert b.all_dependencies
    all_entry_points := (analysis.entry_points.getD []).foldl sinsert b.all_entry_points
    file_summaries := dinsert b.file_summaries file_path (analysis.summary.getD "No summary available")
    call_graph := st.2.1
    reverse_call_graph := st.2.2 }

/-- `RelationshipBuilder.get_function_callers`. -/
def get_function_callers (b : Builder) (func_name : String) : List String :=
  (List.lookup func_name b.reverse_call_graph).getD []

/-- `RelationshipBuilder.get_function_callees`. -/
def get_function_callees (b : Builder) (func_name : String) : List String :=
  (List.lookup func_name b.call_graph).getD []

/-- The filtered callee list computed inside `_trace_path_from`:
"callees that exist in our function list (to exclude external calls)". -/
def resolvableCallees (b : Builder) (func_name : String) : List String :=
  (get_function_callees b func_name).filter
    (fun callee => (List.lookup callee b.all_functions).isSome)

/-- `RelationshipBuilder._trace_path_from`, with a fuel parameter standing in
for Python's unbounded recursion (any fuel exceeding the number of stored
function entries is enough, see `greedyCheck_tracePathFrom` below).  The
Python `for callee in callees` loop returns `path + sub_path` for the first
callee whose recursive sub-path is non-empty and falls through to `path`
(`= [func_name]`) otherwise; that first-hit loop is `List.findSome?`. -/
def tracePathFrom (b : Builder) : Nat → String → List String → List String
  | 0, _, _ => []
  | fuel + 1, func_name, visited =>
    if func_name ∈ visited then []          -- Avoid cycles
    else
      let visited' := func_name :: visited  -- visited.add(func_name)
      match (resolvableCallees b func_name).findSome?
          (fun callee =>
            let sub_path := tracePathFrom b fuel callee visited'
            if sub_path.isEmpty then none else some sub_path) with
      | none => [func_name]
      | some sub_path => func_name :: sub_path

/-- `RelationshipBuilder.get_entry_point_paths`. -/
def get_entry_point_paths (b : Builder) : List (List String) :=
  b.all_entry_points.filterMap (fun entry_point =>
    if (List.lookup entry_point b.all_functions).isSome then
      let path := tracePathFrom b (b.all_functions.length + 1) entry_point []
      if path.isEmpty then none else some path
    else none)

/-- The `functions_by_file` map assembled at the top of `get_summary`. -/
def functionsByFile (b : Builder) : List (String × List String) :=
  b.all_functions.foldl
    (fun acc kv =>
      if kv.2.file_path = "" then acc
      else dinsert acc kv.2.file_path (((List.lookup kv.2.file_path acc).getD []) ++ [kv.1]))
    []

/-- The `file_dependencies` map assembled in `get_summary`: keys initialised
from `file_summaries`, then call-derived cross-file edges appended.  (For a
record whose `file_path` was never ingested Python would raise `KeyError` on
`file_dependencies[file_path]`; that state is unreachable because every
stored record's `file_path` is a `file_summaries` key, and the model's
`dinsert` simply creates the key.) -/
def fileDependencies (b : Builder) : List (String × List String) :=
  let init := b.file_summaries.foldl (fun acc kv => dinsert acc kv.1 []) []
  b.all_functions.foldl
    (fun acc kv =>
      if kv.2.file_path ≠ "" ∧ (List.lookup kv.1 b.call_graph).isSome then
        ((List.lookup kv.1 b.call_graph).getD []).foldl
          (fun acc2 called_func =>
            match List.lookup called_func b.all_functions with
            | none => acc2
            | some details =>
              if details.file_path ≠ "" ∧ details.file_path ≠ kv.2.file_path ∧
                  details.file_path ∉ (List.lookup kv.2.file_path acc2).getD [] then
                dinsert acc2 kv.2.file_path
                  (((List.lookup kv.2.file_path acc2).getD []) ++ [details.file_path])
              else acc2)
          acc
      else acc)
    init

/-- The summary dictionary returned by `RelationshipBuilder.get_summary`. -/
structure Summary where
  total_files : Nat
  total_functions : Nat
  total_dependencies : Nat
  entry_points : List String
  execution_paths : List (List String)
  function_details : List (String × FuncDetails)
  file_functions : List (String × List String)
  function_calls : List (String × List String)
  file_dependencies : List (String × List String)
  file_summaries : List (String × String)
  entry_point_paths : List (List String)
deriving DecidableEq, Repr

/-- `RelationshipBuilder.get_summary`. -/
def get_summary (b : Builder) : Summary :=
  { total_files := b.file_summaries.length
    total_functions := b.all_functions.length
    total_dependencies := b.all_dependencies.length
    entry_points := b.all_entry_points
    execution_paths := get_entry_point_paths b
    function_details := b.all_functions
    file_functions := functionsByFile b
    function_calls := b.call_graph
    file_dependencies := fileDependencies b
    file_summaries := b.file_summaries
    entry_point_paths := get_entry_point_paths b }

/-! ### Node-selection logic of the visualizer

`CodeVisualizer._generate_mermaid` (function-call view) and
`CodeVisualizer._generate_dependency_mermaid` (file-dependency view) share
the same "ADDED: Size limiting logic": score each node by connection count,
sort descending (Python's `sorted` with `reverse=True` is stable), take the
top `max_nodes`. -/

/-- The per-node score computed in `_generate_mermaid`:
`incoming + outgoing + entry_point_bonus` where
`incoming = sum(1 for calls in function_calls.values() if func_name in calls)`,
`outgoing = len(function_calls.get(func_name, []))`, and the bonus is
`5 if func_name in entry_points else 0`. -/
def connectionScore (function_calls : List (String × List String))
    (entry_points : List String) (func_name : String) : Nat :=
  let incoming := (function_calls.filter (fun kv => func_name ∈ kv.2)).length
  let outgoing := ((List.lookup func_name function_calls).getD []).length
  let entry_point_bonus := if func_name ∈ entry_points then 5 else 0
  incoming + outgoing + entry_point_bonus

/-- The raw degree part of `connectionScore`: incoming + outgoing, no bonus. -/
def rawDegree (function_calls : List (String × List String)) (func_name : String) : Nat :=
  (function_calls.filter (fun kv => func_name ∈ kv.2)).length +
    ((List.lookup func_name function_calls).getD []).length

/-- The `connection_count` dictionary of `_generate_mermaid`
(one entry per key of `function_details`). -/
def functionConnectionCount (function_details : List (String × FuncDetails))
    (function_calls : List (String × List String)) (entry_points : List String) :
    List (String × Nat) :=
  function_details.map (fun kv => (kv.1, connectionScore function_calls entry_points kv.1))

/-- The set of functions selected by the size-limiting logic of
`_generate_mermaid` (`functions_to_include`). -/
def selectFunctions (function_details : List (String × FuncDetails))
    (file_functions : List (String × List String))
    (function_calls : List (String × List String))
    (entry_points : List String) (max_nodes : Option Nat) : List String :=
  let total := (file_functions.map (fun kv => kv.2.length)).sum
  match max_nodes with
  | some m =>
    if 0 < m ∧ m < total then
      (((functionConnectionCount function_details function_calls entry_points).mergeSort
          (fun a b => b.2 ≤ a.2)).take m).map (fun x => x.1)
    else
      file_functions.foldl (fun s kv => kv.2.foldl sinsert s) []
  | none => file_functions.foldl (fun s kv => kv.2.foldl sinsert s) []

/-- The per-node score computed in `_generate_dependency_mermaid`
(no entry-point bonus in the file-dependency view). -/
def depConnectionScore (file_dependencies : List (String × List String))
    (file_path : String) : Nat :=
  (file_dependencies.filter (fun kv => file_path ∈ kv.2)).length +
    ((List.lookup file_path file_dependencies).getD []).length

/-- The set of files selected by the size-limiting logic of
`_generate_dependency_mermaid` (`nodes_to_include`). -/
def selectDepNodes (file_summaries : List (String × String))
    (file_dependencies : List (String × List String)) (max_nodes : Option Nat) :
    List String :=
  match max_nodes with
  | some m =>
    if 0 < m ∧ m < file_summaries.length then
      (((file_summaries.map (fun kv => (kv.1, depConnectionScore file_dependencies kv.1))).mergeSort
          (fun a b => b.2 ≤ a.2)).take m).map (fun x => x.1)
    else file_summaries.map (fun kv => kv.1)
  | none => file_summaries.map (fun kv => kv.1)

/-- Modelled from the spec (§4.3): the connectivity score with in-degree and
out-degree counting only edges of the already-filtered edge set restricted to
resolvable nodes — "call-list entries whose target identifier exists in
RecordStore".  Written from the spec's words, to be compared with the
source's `connectionScore`. -/
def specFilteredScore (function_details : List (String × FuncDetails))
    (function_calls : List (String × List String))
    (entry_points : List String) (func_name : String) : Nat :=
  let resolvable := fun c => (List.lookup c function_details).isSome
  let inDeg :=
    if resolvable func_name then (function_calls.filter (fun kv => func_name ∈ kv.2)).length
    else 0
  let outDeg := (((List.lookup func_name function_calls).getD []).filter resolvable).length
  let bonus := if func_name ∈ entry_points then 5 else 0
  inDeg + outDeg + bonus

/-! ### Greedy-rule specification for the path tracer

Written from the spec's words (§4.2): at each node, among the callees that
exist in RecordStore, the first one in call-list order that has not already
appeared in the current path is appended; if none exists the path ends. -/

/-- The spec's greedy successor choice at node `func_name`, given the path
walked so far (including `func_name`). -/
def nextGreedy (b : Builder) (path : List String) (func_name : String) : Option String :=
  (resolvableCallees b func_name).find? (fun c => decide (c ∉ path))

/-- Checks that a path follows the spec's greedy rule, where `pre` is the
part of the path already walked (the full path is `pre ++ rest`). -/
def greedyCheck (b : Builder) (pre : List String) : List String → Bool
  | [] => false
  | [x] => (nextGreedy b (pre ++ [x]) x).isNone
  | x :: y :: rest =>
    (nextGreedy b (pre ++ [x]) x == some y) && greedyCheck b (pre ++ [x]) (y :: rest)

/-- Number of stored function entries whose key is not yet visited (the
measure showing the fuel given to `tracePathFrom` is sufficient). -/
def countUnvisited (b : Builder) (visited : List String) : Nat :=
  (b.all_functions.filter (fun kv => kv.1 ∉ visited)).length

/-! ### Concrete builders used by counterexamples and witnesses -/

/-- Ingest `a.py` declaring the explicit dependency `"b.py"` and nothing else. -/
def c1Builder : Builder :=
  add_file_analysis emptyBuilder "a.py" ⟨none, some ["b.py"], none, none⟩

/-- The two-file example of spec §8: `a.py` has entry point `main` calling
`helper`; `b.py` has `helper` with no calls. -/
def c3Builder : Builder :=
  add_file_analysis
    (add_file_analysis emptyBuilder "a.py"
      ⟨none, none, some ["main"], some [⟨some "main", none, none, none, some ["helper"]⟩]⟩)
    "b.py" ⟨none, none, none, some [⟨some "helper", none, none, none, some []⟩]⟩

/-- Ingest a file whose analysis record is entirely empty. -/
def c9Builder : Builder :=
  add_file_analysis emptyBuilder "m.py" ⟨none, none, none, none⟩

/-- Ingest the same record (`g` calling `f`) twice from the same file. -/
def c10TwiceBuilder : Builder :=
  add_file_analysis
    (add_file_analysis emptyBuilder "a.py"
      ⟨none, none, none, some [⟨some "g", none, none, none, some ["f"]⟩]⟩)
    "a.py" ⟨none, none, none, some [⟨some "g", none, none, none, some ["f"]⟩]⟩

/-- Ingest `g` calling `f`, then re-ingest `g` with an empty call list. -/
def c10StaleBuilder : Builder :=
  add_file_analysis
    (add_file_analysis emptyBuilder "a.py"
      ⟨none, none, none, some [⟨some "g", none, none, none, some ["f"]⟩]⟩)
    "a.py" ⟨none, none, none, some [⟨some "g", none, none, none, some []⟩]⟩

/-! ### Helper lemmas about the dictionary and set model -/

theorem lookup_dinsert_self {α : Type} (m : List (String × α)) (k : String) (v : α) :
    List.lookup k (dinsert m k v) = some v := by
  induction m with
  | nil => simp [dinsert, List.lookup]
  | cons hd tl ih =>
    by_cases h : hd.1 = k
    · simp [dinsert, h, List.lookup]
    · simp only [dinsert, if_neg h, List.lookup, ih]
      rw [show (k == hd.1) = false by simpa using Ne.symm h]

theorem lookup_dinsert_ne {α : Type} (m : List (String × α)) (k k' : String) (v : α)
    (h : k' ≠ k) : List.lookup k' (dinsert m k v) = List.lookup k' m := by
  induction m with
  | nil =>
    simp only [dinsert, List.lookup]
    rw [show (k' == k) = false by simpa using h]
  | cons hd tl ih =>
    by_cases hk : hd.1 = k
    · subst hk
      simp only [dinsert, if_pos rfl, List.lookup]
      rw [show (k' == hd.1) = false by simpa using h]
    · simp only [dinsert, if_neg hk, List.lookup, ih]

theorem find?_congr_pointwise {α : Type} (l : List α) (p q : α → Bool)
    (h : ∀ a ∈ l, p a = q a) : l.find? p = l.find? q := by
  induction l with
  | nil => rfl
  | cons hd tl ih =>
    have hhd := h hd (by simp)
    by_cases hp : p hd = true
    · rw [List.find?_cons_of_pos _ hp, List.find?_cons_of_pos _ (by rw [← hhd]; exact hp)]
    · rw [List.find?_cons_of_neg _ (by simpa using hp),
        List.find?_cons_of_neg _ (by rw [← hhd]; simpa using hp)]
      exact ih (fun a ha => h a (by simp [ha]))

theorem length_filter_add_length_filter_not {α : Type} (p : α → Bool) (l : List α) :
    (l.filter p).length + (l.filter (fun a => !(p a))).length = l.length := by
  induction l with
  | nil => rfl
  | cons hd tl ih =>
    by_cases h : p hd = true <;> simp [List.filter, h, ← ih] <;> omega

theorem length_sinsert_le (s : List String) (x : String) :
    (sinsert s x).length ≤ s.length + 1 := by
  by_cases h : x ∈ s <;> simp [sinsert, h]

theorem length_foldl_sinsert_le (xs : List String) :
    ∀ s : List String, ((xs.foldl sinsert s).length ≤ s.length + xs.length) := by
  induction xs with
  | nil => intro s; simp
  | cons hd tl ih =>
    intro s
    calc ((hd :: tl).foldl sinsert s).length = (tl.foldl sinsert (sinsert s hd)).length := by
          simp [List.foldl]
      _ ≤ (sinsert s hd).length + tl.length := ih _
      _ ≤ s.length + 1 + tl.length := by
          have := length_sinsert_le s hd; omega
      _ = s.length + (hd :: tl).length := by simp; omega

theorem length_foldl_sinsert_all_le (ff : List (String × List String)) :
    ∀ s : List String,
      ((ff.foldl (fun s kv => kv.2.foldl sinsert s) s).length ≤
        s.length + (ff.map (fun kv => kv.2.length)).sum) := by
  induction ff with
  | nil => intro s; simp
  | cons hd tl ih =>
    intro s
    calc ((hd :: tl).foldl (fun s kv => kv.2.foldl sinsert s) s).length
        = (tl.foldl (fun s kv => kv.2.foldl sinsert s) (hd.2.foldl sinsert s)).length := by
          simp [List.foldl]
      _ ≤ (hd.2.foldl sinsert s).length + (tl.map (fun kv => kv.2.length)).sum := ih _
      _ ≤ s.length + hd.2.length + (tl.map (fun kv => kv.2.length)).sum := by
          have := length_foldl_sinsert_le hd.2 s; omega
      _ = s.length + ((hd :: tl).map (fun kv => kv.2.length)).sum := by simp; omega

theorem exists_entry_of_lookup_isSome {α : Type} (l : List (String × α)) (k : String)
    (h : (List.lookup k l).isSome) : ∃ v, (k, v) ∈ l := by
  induction l with
  | nil => simp [List.lookup] at h
  | cons hd tl ih =>
    by_cases hk : hd.1 = k
    · exact ⟨hd.2, by simp [← hk]⟩
    · simp only [List.lookup] at h
      rw [show (k == hd.1) = false by simpa using Ne.symm hk] at h
      obtain ⟨v, hv⟩ := ih h
      exact ⟨v, by simp [hv]⟩

/-! ### Lemmas about the path tracer -/

theorem tracePathFrom_eq_nil_of_mem (b : Builder) (fuel : Nat) (fn : String)
    (visited : List String) (h : fn ∈ visited) :
    tracePathFrom b fuel fn visited = [] := by
  cases fuel with
  | zero => rw [tracePathFrom]
  | succ f => rw [tracePathFrom]; simp [h]

theorem tracePathFrom_head? (b : Builder) (fuel : Nat) (fn : String) (visited : List String)
    (hf : 0 < fuel) (h : fn ∉ visited) :
    (tracePathFrom b fuel fn visited).head? = some fn := by
  cases fuel with
  | zero => omega
  | succ f =>
    rw [tracePathFrom]
    simp only [if_neg (by simpa using h)]
    cases hfs : (resolvableCallees b fn).findSome?
        (fun callee =>
          let sub_path := tracePathFrom b f callee (fn :: visited)
          if sub_path.isEmpty then none else some sub_path) with
    | none => rfl
    | some sub => rfl

theorem tracePathFrom_ne_nil (b : Builder) (fuel : Nat) (fn : String) (visited : List String)
    (hf : 0 < fuel) (h : fn ∉ visited) :
    tracePathFrom b fuel fn visited ≠ [] := by
  intro hnil
  have := tracePathFrom_head? b fuel fn visited hf h
  rw [hnil] at this
  simp at this

/-- The first-hit loop over the callees equals: find the first callee not in
`visited'` and recurse from it (the sub-trace of a visited callee is empty,
that of an unvisited one is non-empty when fuel remains). -/
theorem findSome?_trace_eq (b : Builder) (fuel : Nat) (hf : 0 < fuel)
    (visited' : List String) :
    ∀ cs : List String,
      cs.findSome?
          (fun callee =>
            let sub_path := tracePathFrom b fuel callee visited'
            if sub_path.isEmpty then none else some sub_path) =
        match cs.find? (fun c => decide (c ∉ visited')) with
        | none => none
        | some c => some (tracePathFrom b fuel c visited') := by
  intro cs
  induction cs with
  | nil => rfl
  | cons c rest ih =>
    rw [List.findSome?_cons]
    by_cases h : c ∈ visited'
    · have hnil : tracePathFrom b fuel c visited' = [] :=
        tracePathFrom_eq_nil_of_mem b fuel c visited' h
      rw [List.find?_cons_of_neg _ (by simpa using h)]
      simp only [hnil, List.isEmpty_nil, if_pos rfl]
      exact ih
    · have hne : tracePathFrom b fuel c visited' ≠ [] :=
        tracePathFrom_ne_nil b fuel c visited' hf h
      rw [List.find?_cons_of_pos _ (by simpa using h)]
      simp [List.isEmpty_iff, hne]

theorem filter_unvisited_cons_lt {α : Type} (l : List (String × α)) (fn : String)
    (visited : List String) (hmem : ∃ v, (fn, v) ∈ l) (hv : fn ∉ visited) :
    (l.filter (fun kv => kv.1 ∉ (fn :: visited))).length <
      (l.filter (fun kv => kv.1 ∉ visited)).length := by
  induction l with
  | nil => simp at hmem
  | cons hd tl ih =>
    by_cases hfn : hd.1 = fn
    · have h1 : (decide (hd.1 ∉ (fn :: visited))) = false := by simp [hfn]
      have h2 : (decide (hd.1 ∉ visited)) = true := by simp [hfn, hv]
      rw [List.filter_cons_of_neg (by simpa using h1), List.filter_cons_of_pos (by simpa using h2)]
      have hsub : List.Sublist (tl.filter (fun kv => kv.1 ∉ (fn :: visited)))
          (tl.filter (fun kv => kv.1 ∉ visited)) :=
        List.monotone_filter_right tl (fun kv hkv => by
          simp only [decide_eq_true_eq] at hkv ⊢
          exact fun hmem' => hkv (List.mem_cons_of_mem _ hmem'))
      have := hsub.length_le
      simp only [List.length_cons]
      omega
    · obtain ⟨v, hvmem⟩ := hmem
      have hvtl : (fn, v) ∈ tl := by
        rcases List.mem_cons.mp hvmem with h | h
        · exact absurd (congrArg Prod.fst h).symm hfn
        · exact h
      have hiff : (decide (hd.1 ∉ (fn :: visited))) = (decide (hd.1 ∉ visited)) := by
        simp [List.mem_cons, hfn]
      by_cases hd1 : hd.1 ∉ visited
      · rw [List.filter_cons_of_pos (by simp [List.mem_cons, hfn, hd1]),
          List.filter_cons_of_pos (by simpa using hd1)]
        simpa using Nat.succ_lt_succ (ih ⟨v, hvtl⟩)
      · rw [List.filter_cons_of_neg (by simp [List.mem_cons, hfn]; simpa using hd1),
          List.filter_cons_of_neg (by simpa using hd1)]
        exact ih ⟨v, hvtl⟩

theorem countUnvisited_cons_lt (b : Builder) (fn : String) (visited : List String)
    (hk : (List.lookup fn b.all_functions).isSome) (hv : fn ∉ visited) :
    countUnvisited b (fn :: visited) < countUnvisited b visited :=
  filter_unvisited_cons_lt b.all_functions fn visited
    (exists_entry_of_lookup_isSome _ _ hk) hv

/-- The central lemma: given sufficient fuel, a trace from any stored,
unvisited function follows the spec's greedy rule (`pre` is any list with
the same members as `visited`). -/
theorem greedyCheck_tracePathFrom :
    ∀ (fuel : Nat) (b : Builder) (visited : List String) (fn : String) (pre : List String),
      (List.lookup fn b.all_functions).isSome = true →
      fn ∉ visited →
      countUnvisited b visited < fuel →
      (∀ c, c ∈ pre ↔ c ∈ visited) →
      greedyCheck b pre (tracePathFrom b fuel fn visited) = true := by
  intro fuel
  induction fuel with
  | zero => intro b visited fn pre _ _ hcount _; omega
  | succ f ih =>
    intro b visited fn pre hk hv hcount hpre
    have hfpos : 0 < f := by
      have h1 : 0 < countUnvisited b visited := by
        obtain ⟨v, hmem⟩ := exists_entry_of_lookup_isSome _ _ hk
        have : (fn, v) ∈ b.all_functions.filter (fun kv => kv.1 ∉ visited) :=
          List.mem_filter.mpr ⟨hmem, by simpa using hv⟩
        exact List.length_pos_of_mem this
      omega
    rw [tracePathFrom]
    simp only [if_neg (by simpa using hv)]
    rw [findSome?_trace_eq b f hfpos (fn :: visited) (resolvableCallees b fn)]
    have hmemiff : ∀ c : String, c ∈ pre ++ [fn] ↔ c ∈ fn :: visited := by
      intro c
      simp [List.mem_append, List.mem_cons, hpre c]
      tauto
    have hfind :
        nextGreedy b (pre ++ [fn]) fn =
          (resolvableCallees b fn).find? (fun c => decide (c ∉ (fn :: visited))) := by
      unfold nextGreedy
      exact find?_congr_pointwise _ _ _ (fun c _ => by
        simp only [decide_eq_decide]
        exact not_congr (hmemiff c))
    cases hres : (resolvableCallees b fn).find? (fun c => decide (c ∉ (fn :: visited))) with
    | none =>
      show greedyCheck b pre [fn] = true
      simp only [greedyCheck]
      rw [hfind, hres]
      rfl
    | some c =>
      have hcmem : c ∈ resolvableCallees b fn := List.mem_of_find?_eq_some hres
      have hcpred := List.find?_some hres
      have hcnv : c ∉ (fn :: visited) := by simpa using hcpred
      have hcsome : (List.lookup c b.all_functions).isSome = true := by
        have := List.of_mem_filter hcmem
        simpa using this
      have hcount' : countUnvisited b (fn :: visited) < f := by
        have := countUnvisited_cons_lt b fn visited hk hv
        omega
      -- the sub-trace starts with `c`, so the result is `fn :: c :: _`
      have hhead := tracePathFrom_head? b f c (fn :: visited) hfpos hcnv
      cases hsub : tracePathFrom b f c (fn :: visited) with
      | nil => rw [hsub] at hhead; simp at hhead
      | cons c0 t =>
        rw [hsub] at hhead
        simp only [List.head?] at hhead
        injection hhead with hc0
        subst hc0
        show greedyCheck b pre (fn :: tracePathFrom b f c0 (fn :: visited)) = true
        rw [hsub]
        simp only [greedyCheck, Bool.and_eq_true, beq_iff_eq]
        constructor
        · rw [hfind, hres]
        · have := ih b (fn :: visited) c0 (pre ++ [fn]) hcsome hcnv hcount'
            (fun x => (hmemiff x))
          rw [hsub] at this
          exact this

theorem findSome?_const_none {α β : Type} (l : List α) :
    l.findSome? (fun _ => (none : Option β)) = none := by
  induction l with
  | nil => rfl
  | cons a l ih => rw [List.findSome?_cons]; exact ih

/-- Traced paths never repeat an identifier and never revisit `visited`,
for any fuel, any builder and any starting point. -/
theorem tracePathFrom_nodup_aux :
    ∀ (fuel : Nat) (b : Builder) (fn : String) (visited : List String),
      (tracePathFrom b fuel fn visited).Nodup ∧
        ∀ x ∈ tracePathFrom b fuel fn visited, x ∉ visited := by
  intro fuel
  induction fuel with
  | zero => intro b fn visited; rw [tracePathFrom]; simp
  | succ f ih =>
    intro b fn visited
    by_cases hv : fn ∈ visited
    · rw [tracePathFrom]; simp [hv]
    · rw [tracePathFrom]
      simp only [if_neg (by simpa using hv)]
      rcases Nat.eq_zero_or_pos f with hf0 | hfpos
      · subst hf0
        rw [show ((resolvableCallees b fn).findSome?
            (fun callee =>
              let sub_path := tracePathFrom b 0 callee (fn :: visited)
              if sub_path.isEmpty then none else some sub_path)) =
            ((resolvableCallees b fn).findSome? (fun _ => (none : Option (List String)))) from rfl,
          findSome?_const_none]
        refine ⟨by simp, ?_⟩
        intro x hx
        rcases List.mem_singleton.mp hx with rfl
        exact hv
      · rw [findSome?_trace_eq b f hfpos (fn :: visited) (resolvableCallees b fn)]
        cases hres : (resolvableCallees b fn).find? (fun c => decide (c ∉ (fn :: visited))) with
        | none =>
          refine ⟨by simp, ?_⟩
          intro x hx
          rcases List.mem_singleton.mp hx with rfl
          exact hv
        | some c =>
          have hcnv : c ∉ (fn :: visited) := by simpa using List.find?_some hres
          obtain ⟨hnd, hnv⟩ := ih b c (fn :: visited)
          refine ⟨List.nodup_cons.mpr ⟨fun hmem => (hnv fn hmem) (by simp), hnd⟩, ?_⟩
          intro x hx
          rcases List.mem_cons.mp hx with rfl | hx'
          · exact hv
          · exact fun hvx => (hnv x hx') (List.mem_cons_of_mem _ hvx)

/-- Effect of one record's reverse-call-graph update: each occurrence of `c`
in the call list appends the caller's name once to `c`'s reverse-adjacency
list, and nothing is ever removed. -/
theorem lookup_rcg_foldl (nm : String) :
    ∀ (L : List String) (m : List (String × List String)) (c : String),
      (List.lookup c
          (L.foldl (fun m called => dinsert m called (((List.lookup called m).getD []) ++ [nm])) m)).getD [] =
        ((List.lookup c m).getD []) ++ List.replicate (L.count c) nm := by
  intro L
  induction L with
  | nil => intro m c; simp
  | cons x rest ih =>
    intro m c
    simp only [List.foldl_cons]
    rw [ih]
    by_cases hx : x = c
    · subst hx
      rw [lookup_dinsert_self]
      simp [List.count_cons, List.replicate_succ, List.append_assoc]
    · rw [lookup_dinsert_ne _ _ _ _ (fun h => hx h.symm)]
      simp [List.count_cons, hx, Ne.symm hx]

/-! ### Claim theorems -/

/-- C1 (counterexample): the claim that every explicitly declared dependency
of an ingested file appears in that file's `file_dependencies` entry is
false: `a.py` declares the dependency `"b.py"` (it is recorded in the global
dependency set), yet the `file_dependencies` entry of `a.py` in the summary
is empty. -/
theorem c1_declared_dep_dropped :
    "b.py" ∈ c1Builder.all_dependencies ∧
      "b.py" ∉ (List.lookup "a.py" (get_summary c1Builder).file_dependencies).getD [] := by
  decide

/-- C1 (amended): `file_dependencies` is derived solely from resolvable
cross-file calls; the explicitly declared per-file dependency list never
contributes to it (declared dependencies only feed the global set counted by
`total_dependencies`). -/
theorem c1_file_dependencies_ignore_declared_deps (b : Builder) (fp : String)
    (a : Analysis) (d1 d2 : Option (List String)) :
    (get_summary (add_file_analysis b fp { a with dependencies := d1 })).file_dependencies =
      (get_summary (add_file_analysis b fp { a with dependencies := d2 })).file_dependencies := rfl

/-- C2 (counterexample): the node-selection score does not restrict the
out-degree to resolvable call targets: function `f` whose only call-list
entry names the unknown identifier `ghost` scores 1, while the spec's
filtered score is 0. -/
theorem c2_unresolved_callee_scores :
    connectionScore [("f", ["ghost"])] [] "f" = 1 ∧
      specFilteredScore [("f", FuncDetails.mk "" "" "" ["ghost"] "a.py")]
        [("f", ["ghost"])] [] "f" = 0 ∧
      connectionScore [("f", ["ghost"])] [] "f" ≠
        specFilteredScore [("f", FuncDetails.mk "" "" "" ["ghost"] "a.py")]
          [("f", ["ghost"])] [] "f" := by
  decide

/-- C2 (amended): the in-degree counts callers whose call list mentions the
node, as claimed, but the out-degree counts every raw call-list entry of the
node — entries naming unknown identifiers included.  The code's score
exceeds the spec's filtered score by exactly the number of call-list entries
whose target is absent from the store. -/
theorem c2_connectionScore_eq_filtered_add_unresolved
    (fd : List (String × FuncDetails)) (fc : List (String × List String))
    (eps : List String) (fn : String) (h : (List.lookup fn fd).isSome = true) :
    connectionScore fc eps fn =
      specFilteredScore fd fc eps fn +
        (((List.lookup fn fc).getD []).filter
          (fun c => !((List.lookup c fd).isSome))).length := by
  simp only [connectionScore, specFilteredScore, if_pos h]
  have := length_filter_add_length_filter_not
    (fun c => (List.lookup c fd).isSome) ((List.lookup fn fc).getD [])
  omega

theorem c2_connectionScore_eq_filtered_add_unresolved_witness :
    ((List.lookup "f" [("f", FuncDetails.mk "" "" "" ["ghost"] "a.py")]).isSome = true) ∧
      connectionScore [("f", ["ghost"])] [] "f" =
        specFilteredScore [("f", FuncDetails.mk "" "" "" ["ghost"] "a.py")]
            [("f", ["ghost"])] [] "f" +
          (((List.lookup "f" [("f", ["ghost"])]).getD []).filter
            (fun c => !((List.lookup c [("f", FuncDetails.mk "" "" "" ["ghost"] "a.py")]).isSome))).length :=
  ⟨by decide,
    c2_connectionScore_eq_filtered_add_unresolved
      [("f", FuncDetails.mk "" "" "" ["ghost"] "a.py")] [("f", ["ghost"])] [] "f" (by decide)⟩

/-- C3 (counterexample): after ingesting the two-file example, the summary's
`function_calls` and `file_dependencies` maps do not equal the claimed
dictionaries exactly: they hold extra keys `helper` and `b.py` (bound to
empty lists), which the claimed dictionaries lack. -/
theorem c3_summary_has_extra_keys :
    List.lookup "helper" (get_summary c3Builder).function_calls ≠ none ∧
      List.lookup "b.py" (get_summary c3Builder).file_dependencies ≠ none := by
  decide

/-- C3 (amended): for the two-file example the summary satisfies exactly
`function_calls = {"main": ["helper"], "helper": []}`,
`file_dependencies = {"a.py": ["b.py"], "b.py": []}` and
`entry_point_paths = [["main", "helper"]]`. -/
theorem c3_example_summary :
    (get_summary c3Builder).function_calls = [("main", ["helper"]), ("helper", [])] ∧
      (get_summary c3Builder).file_dependencies = [("a.py", ["b.py"]), ("b.py", [])] ∧
      (get_summary c3Builder).entry_point_paths = [["main", "helper"]] := by
  decide

/-- C4: for every entry identifier present in the store, the traced path is
exactly the spec's greedy walk: it starts at the entry, at each node appends
the first call-list callee that resolves in the store and has not yet
appeared in the current path, and stops when no such callee exists. -/
theorem c4_trace_follows_greedy_rule (b : Builder) (e : String)
    (h : (List.lookup e b.all_functions).isSome = true) :
    (tracePathFrom b (b.all_functions.length + 1) e []).head? = some e ∧
      greedyCheck b [] (tracePathFrom b (b.all_functions.length + 1) e []) = true := by
  constructor
  · exact tracePathFrom_head? b _ e [] (by omega) (by simp)
  · apply greedyCheck_tracePathFrom (b.all_functions.length + 1) b [] e [] h (by simp)
    · have : countUnvisited b [] ≤ b.all_functions.length := List.length_filter_le _ _
      omega
    · intro c; simp

theorem c4_trace_follows_greedy_rule_witness :
    ((List.lookup "main" c3Builder.all_functions).isSome = true) ∧
      ((tracePathFrom c3Builder (c3Builder.all_functions.length + 1) "main" []).head? = some "main" ∧
        greedyCheck c3Builder []
          (tracePathFrom c3Builder (c3Builder.all_functions.length + 1) "main" []) = true) :=
  ⟨by decide, c4_trace_follows_greedy_rule c3Builder "main" (by decide)⟩

/-- C5: every execution path produced from any entry point over any builder
contents repeats no identifier. -/
theorem c5_entry_point_paths_nodup (b : Builder) (p : List String)
    (hp : p ∈ get_entry_point_paths b) : p.Nodup := by
  unfold get_entry_point_paths at hp
  obtain ⟨e, _, hfe⟩ := List.mem_filterMap.mp hp
  by_cases hsome : (List.lookup e b.all_functions).isSome
  · rw [if_pos hsome] at hfe
    by_cases hemp : (tracePathFrom b (b.all_functions.length + 1) e []).isEmpty
    · rw [if_pos hemp] at hfe; cases hfe
    · rw [if_neg hemp] at hfe
      cases hfe
      exact (tracePathFrom_nodup_aux (b.all_functions.length + 1) b e []).1
  · rw [if_neg hsome] at hfe; cases hfe

theorem c5_entry_point_paths_nodup_witness :
    (["main", "helper"] ∈ get_entry_point_paths c3Builder) ∧
      (["main", "helper"] : List String).Nodup :=
  ⟨by decide, c5_entry_point_paths_nodup c3Builder ["main", "helper"] (by decide)⟩

/-- C6: ingestion is last-write-wins on the bare identifier: ingesting `f`
from file A and then from file B leaves both the record store and the call
graph reflecting the file-B record, with `file_path = B`; the file-A record
is replaced. -/
theorem c6_last_write_wins (b : Builder) (fA fB f : String) (dA dB : FuncData)
    (hA : dA.name = some f) (hB : dB.name = some f) :
    List.lookup f (add_file_analysis b fA ⟨none, none, none, some [dA]⟩).all_functions
        = some ⟨dA.description.getD "", dA.inputs.getD "", dA.outputs.getD "", dA.calls.getD [], fA⟩ ∧
      List.lookup f (add_file_analysis (add_file_analysis b fA ⟨none, none, none, some [dA]⟩) fB
            ⟨none, none, none, some [dB]⟩).all_functions
        = some ⟨dB.description.getD "", dB.inputs.getD "", dB.outputs.getD "", dB.calls.getD [], fB⟩ ∧
      List.lookup f (add_file_analysis (add_file_analysis b fA ⟨none, none, none, some [dA]⟩) fB
            ⟨none, none, none, some [dB]⟩).call_graph
        = some (dB.calls.getD []) := by
  refine ⟨?_, ?_, ?_⟩ <;>
    simp only [add_file_analysis, processFunc, List.foldl_cons, List.foldl_nil,
      Option.getD_some, hA, hB] <;>
    exact lookup_dinsert_self _ _ _

theorem c6_last_write_wins_witness :
    ((⟨some "f", none, none, none, some ["x"]⟩ : FuncData).name = some "f") ∧
      ((⟨some "f", some "d2", none, none, some []⟩ : FuncData).name = some "f") ∧
      (List.lookup "f" (add_file_analysis emptyBuilder "A.py"
            ⟨none, none, none, some [⟨some "f", none, none, none, some ["x"]⟩]⟩).all_functions
          = some ⟨"", "", "", ["x"], "A.py"⟩ ∧
        List.lookup "f" (add_file_analysis (add_file_analysis emptyBuilder "A.py"
              ⟨none, none, none, some [⟨some "f", none, none, none, some ["x"]⟩]⟩) "B.py"
              ⟨none, none, none, some [⟨some "f", some "d2", none, none, some []⟩]⟩).all_functions
          = some ⟨"d2", "", "", [], "B.py"⟩ ∧
        List.lookup "f" (add_file_analysis (add_file_analysis emptyBuilder "A.py"
              ⟨none, none, none, some [⟨some "f", none, none, none, some ["x"]⟩]⟩) "B.py"
              ⟨none, none, none, some [⟨some "f", some "d2", none, none, some []⟩]⟩).call_graph
          = some []) :=
  ⟨rfl, rfl,
    c6_last_write_wins emptyBuilder "A.py" "B.py" "f"
      ⟨some "f", none, none, none, some ["x"]⟩
      ⟨some "f", some "d2", none, none, some []⟩ rfl rfl⟩

/-- C7: whenever a positive `maxNodes` limit is supplied, the node-selection
operation selects at most `maxNodes` nodes, for every input graph, in both
the function-call view and the file-dependency view. -/
theorem c7_bounded_selection (fd : List (String × FuncDetails))
    (ff : List (String × List String)) (fc : List (String × List String))
    (eps : List String) (fs : List (String × String))
    (fdeps : List (String × List String)) (m : Nat) (h : 0 < m) :
    (selectFunctions fd ff fc eps (some m)).length ≤ m ∧
      (selectDepNodes fs fdeps (some m)).length ≤ m := by
  constructor
  · show (if 0 < m ∧ m < (ff.map (fun kv => kv.2.length)).sum then
        (((functionConnectionCount fd fc eps).mergeSort (fun a b => b.2 ≤ a.2)).take m).map
          (fun x => x.1)
      else ff.foldl (fun s kv => kv.2.foldl sinsert s) []).length ≤ m
    by_cases hc : 0 < m ∧ m < (ff.map (fun kv => kv.2.length)).sum
    · rw [if_pos hc]
      have := List.length_take m
        ((functionConnectionCount fd fc eps).mergeSort (fun a b => b.2 ≤ a.2))
      simp only [List.length_map, List.length_take]
      omega
    · rw [if_neg hc]
      have hb := length_foldl_sinsert_all_le ff []
      have htot : (ff.map (fun kv => kv.2.length)).sum ≤ m := by
        rcases Nat.lt_or_ge m ((ff.map (fun kv => kv.2.length)).sum) with hlt | hge
        · exact absurd ⟨h, hlt⟩ hc
        · exact hge
      simp only [List.length_nil] at hb
      omega
  · show (if 0 < m ∧ m < fs.length then
        (((fs.map (fun kv => (kv.1, depConnectionScore fdeps kv.1))).mergeSort
            (fun a b => b.2 ≤ a.2)).take m).map (fun x => x.1)
      else fs.map (fun kv => kv.1)).length ≤ m
    by_cases hc : 0 < m ∧ m < fs.length
    · rw [if_pos hc]
      simp only [List.length_map, List.length_take]
      omega
    · rw [if_neg hc]
      have htot : fs.length ≤ m := by
        rcases Nat.lt_or_ge m fs.length with hlt | hge
        · exact absurd ⟨h, hlt⟩ hc
        · exact hge
      simpa using htot

theorem c7_bounded_selection_witness :
    (0 < 1) ∧
      ((selectFunctions [("f", FuncDetails.mk "" "" "" [] "a.py"), ("g", FuncDetails.mk "" "" "" [] "a.py")]
            [("a.py", ["f", "g"])] [] [] (some 1)).length ≤ 1 ∧
        (selectDepNodes [("a.py", ""), ("b.py", "")] [("a.py", ["b.py"])] (some 1)).length ≤ 1) :=
  ⟨by decide,
    c7_bounded_selection
      [("f", FuncDetails.mk "" "" "" [] "a.py"), ("g", FuncDetails.mk "" "" "" [] "a.py")]
      [("a.py", ["f", "g"])] [] [] [("a.py", ""), ("b.py", "")] [("a.py", ["b.py"])] 1
      (by decide)⟩

/-- C8: the entry-point bonus in the connectivity score is the fixed
constant 5, applied exactly when the node is an entry point; hence of two
nodes with equal raw degree of which exactly one is an entry point, the
entry point scores 5 more, and so is ranked at least as high by the
score-descending selection. -/
theorem c8_entry_point_bonus (fc : List (String × List String)) (eps : List String)
    (n1 n2 : String) (h1 : n1 ∈ eps) (h2 : n2 ∉ eps)
    (hdeg : rawDegree fc n1 = rawDegree fc n2) :
    connectionScore fc eps n1 = connectionScore fc eps n2 + 5 ∧
      connectionScore fc eps n2 ≤ connectionScore fc eps n1 := by
  have e1 : connectionScore fc eps n1 = rawDegree fc n1 + 5 := by
    simp [connectionScore, rawDegree, h1]
  have e2 : connectionScore fc eps n2 = rawDegree fc n2 := by
    simp [connectionScore, rawDegree, h2]
  omega

theorem c8_entry_point_bonus_witness :
    ("a" ∈ ["a"]) ∧ ("b" ∉ ["a"]) ∧ rawDegree [] "a" = rawDegree [] "b" ∧
      (connectionScore [] ["a"] "a" = connectionScore [] ["a"] "b" + 5 ∧
        connectionScore [] ["a"] "b" ≤ connectionScore [] ["a"] "a") :=
  ⟨by decide, by decide, by decide,
    c8_entry_point_bonus [] ["a"] "a" "b" (by decide) (by decide) (by decide)⟩

/-- C9 (counterexample): a missing `summary` key does not default to the
empty string: it defaults to the sentinel text "No summary available". -/
theorem c9_missing_summary_not_empty :
    List.lookup "m.py" c9Builder.file_summaries = some "No summary available" ∧
      List.lookup "m.py" c9Builder.file_summaries ≠ some "" := by
  decide

/-- C9 (amended): ingestion of a dictionary record is total and missing keys
default to empty values — description, inputs and outputs to empty strings,
calls to an empty list, missing dependencies/entry_points/functions leave
those collections untouched — except that a missing summary defaults to the
text "No summary available" rather than the empty string. -/
theorem c9_ingestion_defaults (b : Builder) (fp nm : String) :
    (List.lookup fp (add_file_analysis b fp
          ⟨none, none, none, some [⟨some nm, none, none, none, none⟩]⟩).file_summaries
        = some "No summary available") ∧
      (List.lookup nm (add_file_analysis b fp
            ⟨none, none, none, some [⟨some nm, none, none, none, none⟩]⟩).all_functions
        = some ⟨"", "", "", [], fp⟩) ∧
      (List.lookup nm (add_file_analysis b fp
            ⟨none, none, none, some [⟨some nm, none, none, none, none⟩]⟩).call_graph
        = some []) ∧
      (add_file_analysis b fp
          ⟨none, none, none, some [⟨some nm, none, none, none, none⟩]⟩).all_dependencies
        = b.all_dependencies ∧
      (add_file_analysis b fp
          ⟨none, none, none, some [⟨some nm, none, none, none, none⟩]⟩).all_entry_points
        = b.all_entry_points ∧
      (add_file_analysis b fp
          ⟨none, none, none, some [⟨some nm, none, none, none, none⟩]⟩).reverse_call_graph
        = b.reverse_call_graph ∧
      (add_file_analysis b fp ⟨none, none, none, none⟩).all_functions = b.all_functions := by
  refine ⟨?_, ?_, ?_, rfl, rfl, rfl, rfl⟩ <;>
    simp only [add_file_analysis, processFunc, List.foldl_cons, List.foldl_nil,
      Option.getD_some, Option.getD_none] <;>
    exact lookup_dinsert_self _ _ _

/-- C10: the reverse call graph is append-only and never reconciled with the
forward graph: each ingestion of a function record appends the caller's name
to the reverse-adjacency list of every call-list entry (once per
occurrence), so re-ingesting a record duplicates callers
(`get_function_callers "f" = ["g", "g"]`), and replacing a caller's call
list leaves its old reverse edges behind (`"g"` still listed as caller of
`"f"` although its current call list is empty). -/
theorem c10_reverse_graph_append_only :
    (∀ (b : Builder) (fp nm : String) (L : List String) (c : String),
        get_function_callers
            (add_file_analysis b fp ⟨none, none, none, some [⟨some nm, none, none, none, some L⟩]⟩) c =
          get_function_callers b c ++ List.replicate (L.count c) nm) ∧
      get_function_callers c10TwiceBuilder "f" = ["g", "g"] ∧
      get_function_callers c10StaleBuilder "f" = ["g"] ∧
      List.lookup "g" c10StaleBuilder.call_graph = some [] := by
  refine ⟨?_, by decide, by decide, by decide⟩
  intro b fp nm L c
  simp only [get_function_callers, add_file_analysis, processFunc,
    List.foldl_cons, List.foldl_nil, Option.getD_some]
  exact lookup_rcg_foldl nm L b.reverse_call_graph c

end SourceFlow
